import Mathlib

/-!
# Verification of the rust-todo-list core

A shallow embedding of the repository's core (`src/models.rs`,
`src/serialize.rs`) together with proofs of the specification's claims.

Modelling conventions:

* `Vec<TodoItem>` becomes `List TodoItem`; `Vec::remove` / `Vec::insert`,
  which panic when the index is out of bounds, become `Option`-returning
  functions (`none` models the panic).
* `chrono::DateTime<Utc>` becomes `Timestamp`, a record of civil fields
  (year–nanosecond, UTC).  `Utc::now()` is an external input, so every
  mutating operation takes the current instant `now` explicitly.
* The `toml`/`serde` boundary is modelled at the document level: a `Toml`
  value tree mirrors `toml::Value`, and encoding/decoding of `TodoList`
  mirror the derived `Serialize`/`Deserialize` implementations.  The
  timestamp is serialised through a concrete RFC 3339 formatter (chrono's
  `SecondsFormat::AutoSi`, `Z` suffix) and parsed back by a concrete
  RFC 3339 reader, so that the round-trip of the timestamp text is proved,
  not assumed.
* The file system is a map from paths to `FileState`; reading and writing
  are explicit state passing.  A stored file keeps its parsed `Toml`
  document (`FileDoc.wellFormed`) or is syntactically malformed
  (`FileDoc.malformed`); unreadable and absent files model the
  `io::Error` cases of `fs::read_to_string`.
-/

/-- One item of the todo list; mirrors `TodoItem` in `src/models.rs`
(`description: String`, `completed: bool`). -/
structure TodoItem where
  description : String
  completed : Bool
deriving Repr, DecidableEq

/-- The value produced by `TodoItem::default()` (`derive(Default)`):
empty description, `completed = false`. -/
def TodoItem.default : TodoItem := { description := "", completed := false }

/-- A UTC instant in civil-field form, modelling `chrono::DateTime<Utc>`
(restricted to years 0–9999, no leap seconds). -/
structure Timestamp where
  year : Nat
  month : Nat
  day : Nat
  hour : Nat
  minute : Nat
  second : Nat
  nano : Nat
deriving Repr, DecidableEq

/-- Number of days in a month, with the Gregorian leap-year rule;
used by the RFC 3339 reader's range validation. -/
def daysInMonth (year month : Nat) : Nat :=
  if month = 2 then
    if year % 4 = 0 ∧ (year % 100 ≠ 0 ∨ year % 400 = 0) then 29 else 28
  else if month = 4 ∨ month = 6 ∨ month = 9 ∨ month = 11 then 30
  else 31

/-- The invariant `chrono` maintains on a `DateTime<Utc>` (within the
modelled year range and without leap seconds). -/
def Timestamp.Valid (t : Timestamp) : Prop :=
  t.year ≤ 9999 ∧ 1 ≤ t.month ∧ t.month ≤ 12 ∧
  1 ≤ t.day ∧ t.day ≤ daysInMonth t.year t.month ∧
  t.hour ≤ 23 ∧ t.minute ≤ 59 ∧ t.second ≤ 59 ∧ t.nano < 1000000000

instance (t : Timestamp) : Decidable t.Valid := by
  unfold Timestamp.Valid; infer_instance

/-- Order-embedding of a timestamp into `Nat` (mixed-radix over its
fields); chronological comparison of valid timestamps is comparison of
keys. -/
def Timestamp.key (t : Timestamp) : Nat :=
  ((((((t.year * 13 + t.month) * 32 + t.day) * 24 + t.hour) * 60 +
      t.minute) * 60 + t.second) * 1000000000 + t.nano)

/-- The todo list; mirrors `TodoList` in `src/models.rs`
(`items: Vec<TodoItem>`, `last_updated: DateTime<Utc>`). -/
structure TodoList where
  items : List TodoItem
  last_updated : Timestamp
deriving Repr, DecidableEq

/-! ## Vec primitives

`Vec::remove` and `Vec::insert` from the Rust standard library, as used by
`TodoList::move_item` and `TodoList::remove_item`.  Both panic on an
out-of-bounds index; `none` models the panic. -/

/-- Rust `Vec::remove(i)`: removes and returns the element at `i`, shifting the
rest left; `none` when `i ≥` length (Rust panics there). -/
def listRemove : List α → Nat → Option (α × List α)
  | [], _ => none
  | x :: xs, 0 => some (x, xs)
  | x :: xs, n + 1 =>
    match listRemove xs n with
    | none => none
    | some (y, ys) => some (y, x :: ys)

/-- Rust `Vec::insert(i, a)`: inserts `a` at position `i`, shifting the rest
right; `none` when `i >` length (Rust panics there). -/
def listInsert : List α → Nat → α → Option (List α)
  | xs, 0, a => some (a :: xs)
  | [], _ + 1, _ => none
  | x :: xs, n + 1, a => (listInsert xs n a).map (x :: ·)

/-! ## TodoList operations (`impl TodoList`, `src/models.rs`)

Each mutating operation ends with `set_last_updated`, i.e. stores the
current instant `now` into `last_updated`. -/

/-- Mirrors `TodoList::len` (`src/models.rs:24`). -/
def TodoList.len (l : TodoList) : Nat := l.items.length

/-- Mirrors `TodoList::is_empty` (`src/models.rs:29`). -/
def TodoList.is_empty (l : TodoList) : Bool := l.items.isEmpty

/-- Mirrors `TodoList::iter` (`src/models.rs:34`): the ordered traversal of the
items. -/
def TodoList.iter (l : TodoList) : List TodoItem := l.items

/-- Mirrors `TodoList::add_item` (`src/models.rs:41`): pushes `item` onto the end,
then `set_last_updated`. -/
def TodoList.add_item (l : TodoList) (item : TodoItem) (now : Timestamp) :
    TodoList :=
  { items := l.items ++ [item], last_updated := now }

/-- Mirrors `TodoList::move_item` (`src/models.rs:51`):
`let item = self.items.remove(ix_old); self.items.insert(ix_new, item)`,
then `set_last_updated`.  `none` models the panic of either `Vec` call. -/
def TodoList.move_item (l : TodoList) (ix_old ix_new : Nat)
    (now : Timestamp) : Option TodoList :=
  match listRemove l.items ix_old with
  | none => none
  | some (item, rest) =>
    match listInsert rest ix_new item with
    | none => none
    | some items => some { items := items, last_updated := now }

/-- Mirrors `TodoList::remove_item` (`src/models.rs:62`): `self.items.remove(index)`,
then `set_last_updated`.  `none` models the panic. -/
def TodoList.remove_item (l : TodoList) (index : Nat) (now : Timestamp) :
    Option TodoList :=
  match listRemove l.items index with
  | none => none
  | some (_, rest) => some { items := rest, last_updated := now }

/-- Mirrors `TodoList::toggle_completion` (`src/models.rs:73`): flips the
`completed` flag of the item at `index`, then `set_last_updated`, and
returns the new flag.  `none` models the panic of `self.items[index]`. -/
def TodoList.toggle_completion (l : TodoList) (index : Nat)
    (now : Timestamp) : Option (Bool × TodoList) :=
  if h : index < l.items.length then
    let item := l.items.get ⟨index, h⟩
    let updated := !item.completed
    some (updated,
      { items := l.items.set index { item with completed := updated },
        last_updated := now })
  else none

/-- Mirrors `TodoList::default()` (`src/models.rs:90`): empty items, timestamp =
creation time. -/
def TodoList.default (now : Timestamp) : TodoList :=
  { items := [], last_updated := now }

/-! Read accessors take `&self`; state passing makes the unchanged receiver
explicit, mirroring that a shared borrow cannot mutate the list. -/

/-- Call of `len` in state-passing form: result plus the (unchanged) receiver. -/
def TodoList.lenCall (l : TodoList) : Nat × TodoList := (l.len, l)

/-- Call of `is_empty` in state-passing form. -/
def TodoList.isEmptyCall (l : TodoList) : Bool × TodoList := (l.is_empty, l)

/-- Call of `iter` in state-passing form. -/
def TodoList.iterCall (l : TodoList) : List TodoItem × TodoList := (l.iter, l)

/-! ## RFC 3339 text for the timestamp

`chrono`'s serde support serialises a `DateTime<Utc>` as the RFC 3339
string with `Z` suffix and `SecondsFormat::AutoSi` (0, 3, 6 or 9
fractional digits, the fewest that lose nothing), and deserialises by
parsing RFC 3339.  Both directions are implemented concretely here so the
timestamp's textual round-trip is a theorem. -/

/-- Numeric value of a decimal digit character. -/
def digitVal (c : Char) : Nat := c.toNat - 48

/-- The `k`-digit zero-padded decimal rendering of `n`, most significant
digit first (the behaviour of chrono's fixed-width numeric fields). -/
def padDigits : Nat → Nat → List Char
  | 0, _ => []
  | k + 1, n => Nat.digitChar (n / 10 ^ k) :: padDigits k (n % 10 ^ k)

/-- Reads exactly `k` decimal digits into the accumulator `acc`. -/
def readDigits : Nat → Nat → List Char → Option (Nat × List Char)
  | 0, acc, cs => some (acc, cs)
  | k + 1, acc, c :: cs =>
    if c.isDigit then readDigits k (acc * 10 + digitVal c) cs else none
  | _ + 1, _, [] => none

/-- Folds a digit string into a number (most significant first). -/
def digitsToNat (cs : List Char) (acc : Nat) : Nat :=
  match cs with
  | [] => acc
  | c :: rest => digitsToNat rest (acc * 10 + digitVal c)

/-- The `AutoSi` fractional part: empty for zero nanoseconds, otherwise
`.` plus 3, 6 or 9 digits depending on the trailing zeros. -/
def fracChars (nano : Nat) : List Char :=
  if nano = 0 then []
  else if nano % 1000000 = 0 then '.' :: padDigits 3 (nano / 1000000)
  else if nano % 1000 = 0 then '.' :: padDigits 6 (nano / 1000)
  else '.' :: padDigits 9 nano

/-- RFC 3339 rendering `YYYY-MM-DDTHH:MM:SS[.fff[fff[fff]]]Z`. -/
def rfc3339Chars (t : Timestamp) : List Char :=
  padDigits 4 t.year ++ '-' ::
    (padDigits 2 t.month ++ '-' ::
      (padDigits 2 t.day ++ 'T' ::
        (padDigits 2 t.hour ++ ':' ::
          (padDigits 2 t.minute ++ ':' ::
            (padDigits 2 t.second ++
              (fracChars t.nano ++ ['Z']))))))

/-- The string `chrono` stores for a timestamp in the TOML document. -/
def Timestamp.toRfc3339 (t : Timestamp) : String := String.mk (rfc3339Chars t)

/-- Consumes an expected punctuation character. -/
def expectChar (c : Char) : List Char → Option (List Char)
  | d :: cs => if d = c then some cs else none
  | [] => none

/-- The date/time separator of RFC 3339 as accepted by chrono:
`T`, `t` or a space. -/
def expectDateTimeSep : List Char → Option (List Char)
  | 'T' :: cs => some cs
  | 't' :: cs => some cs
  | ' ' :: cs => some cs
  | _ => none

/-- Optional fractional seconds: `.` followed by at least one digit; the
first nine digits give the nanoseconds (shorter runs are scaled up,
further digits are consumed and ignored, as chrono does). -/
def parseFrac (cs : List Char) : Option (Nat × List Char) :=
  match cs with
  | '.' :: rest =>
    let ds := rest.takeWhile Char.isDigit
    if ds.length = 0 then none
    else
      let ds9 := ds.take 9
      some (digitsToNat ds9 0 * 10 ^ (9 - ds9.length),
        rest.dropWhile Char.isDigit)
  | _ => some (0, cs)

/-- The UTC offset.  Only the zero offset (`Z`, `z`, `+00:00`, `-00:00`)
is modelled: chrono additionally converts nonzero offsets to UTC, but
`dump` only ever emits `Z`, so that branch is unreachable from documents
this program writes. -/
def parseOffsetZ : List Char → Option (List Char)
  | 'Z' :: cs => some cs
  | 'z' :: cs => some cs
  | '+' :: '0' :: '0' :: ':' :: '0' :: '0' :: cs => some cs
  | '-' :: '0' :: '0' :: ':' :: '0' :: '0' :: cs => some cs
  | _ => none

/-- Final stage of RFC 3339 reading: offset, end of input, and chrono's
range validation of the civil fields (leap seconds are not modelled). -/
def finishTimestamp (year month day hour minute second nano : Nat)
    (cs : List Char) : Option Timestamp :=
  match parseOffsetZ cs with
  | none => none
  | some cs =>
    if cs = [] then
      let t : Timestamp := ⟨year, month, day, hour, minute, second, nano⟩
      if t.Valid then some t else none
    else none

/-- Stage: fractional seconds, then finish. -/
def parseNanoOn (year month day hour minute second : Nat)
    (cs : List Char) : Option Timestamp :=
  match parseFrac cs with
  | none => none
  | some (nano, cs) =>
    finishTimestamp year month day hour minute second nano cs

/-- Stage: two-digit seconds. -/
def parseSecondOn (year month day hour minute : Nat) (cs : List Char) :
    Option Timestamp :=
  match readDigits 2 0 cs with
  | none => none
  | some (second, cs) => parseNanoOn year month day hour minute second cs

/-- Stage: two-digit minutes and the `:` before seconds. -/
def parseMinuteOn (year month day hour : Nat) (cs : List Char) :
    Option Timestamp :=
  match readDigits 2 0 cs with
  | none => none
  | some (minute, cs) =>
    match expectChar ':' cs with
    | none => none
    | some cs => parseSecondOn year month day hour minute cs

/-- Stage: two-digit hours and the `:` before minutes. -/
def parseHourOn (year month day : Nat) (cs : List Char) :
    Option Timestamp :=
  match readDigits 2 0 cs with
  | none => none
  | some (hour, cs) =>
    match expectChar ':' cs with
    | none => none
    | some cs => parseMinuteOn year month day hour cs

/-- Stage: two-digit day and the date/time separator. -/
def parseDayOn (year month : Nat) (cs : List Char) : Option Timestamp :=
  match readDigits 2 0 cs with
  | none => none
  | some (day, cs) =>
    match expectDateTimeSep cs with
    | none => none
    | some cs => parseHourOn year month day cs

/-- Stage: two-digit month and the `-` before the day. -/
def parseMonthOn (year : Nat) (cs : List Char) : Option Timestamp :=
  match readDigits 2 0 cs with
  | none => none
  | some (month, cs) =>
    match expectChar '-' cs with
    | none => none
    | some cs => parseDayOn year month cs

/-- RFC 3339 reading: four-digit year, the `-` before the month, then the
remaining stages. -/
def parseRfc3339Chars (cs : List Char) : Option Timestamp :=
  match readDigits 4 0 cs with
  | none => none
  | some (year, cs) =>
    match expectChar '-' cs with
    | none => none
    | some cs => parseMonthOn year cs

/-- Parsing entry point on strings. -/
def Timestamp.fromRfc3339 (s : String) : Option Timestamp :=
  parseRfc3339Chars s.data

/-! ## The TOML document layer

`toml::Value` restricted to the variants this data model can meet
(`Float` and `Datetime` never arise here: chrono stores the timestamp as
a string, and any other unexpected variant behaves like `int` — a
wrong-type error on decode).  A file's text is modelled by its parsed
document; `FileDoc.malformed` stands for text that `toml::from_str`
rejects at the syntax level. -/

inductive Toml where
  | str (s : String)
  | int (n : Int)
  | boolean (b : Bool)
  | arr (vs : List Toml)
  | table (kvs : List (String × Toml))

/-- Key lookup in a TOML table (the TOML syntax layer forbids duplicate
keys, and serde ignores unknown ones). -/
def tomlLookup : List (String × Toml) → String → Option Toml
  | [], _ => none
  | (k, v) :: kvs, key => if k = key then some v else tomlLookup kvs key

/-- Derived `Serialize` for `TodoItem`: a table with the two fields in
declaration order. -/
def TodoItem.toToml (i : TodoItem) : Toml :=
  .table [("description", .str i.description),
    ("completed", .boolean i.completed)]

/-- Derived `Serialize` for `TodoList`: `items` as an array of item
tables, `last_updated` as the RFC 3339 string chrono emits. -/
def TodoList.toToml (l : TodoList) : Toml :=
  .table [("items", .arr (l.items.map TodoItem.toToml)),
    ("last_updated", .str l.last_updated.toRfc3339)]

/-- Derived `Deserialize` for `TodoItem`: requires a table with a string
`description` and a boolean `completed`; a missing field or another value
shape is an error. -/
def TodoItem.fromToml : Toml → Except String TodoItem
  | .table kvs =>
    match tomlLookup kvs "description" with
    | none => .error "missing field description"
    | some (.str d) =>
      match tomlLookup kvs "completed" with
      | none => .error "missing field completed"
      | some (.boolean c) => .ok { description := d, completed := c }
      | some _ => .error "invalid type for field completed"
    | some _ => .error "invalid type for field description"
  | _ => .error "invalid type: expected a table for TodoItem"

/-- Element-wise decoding of the `items` array (serde's `Vec` visitor):
the first failing element fails the whole array. -/
def decodeItems : List Toml → Except String (List TodoItem)
  | [] => .ok []
  | v :: vs =>
    match TodoItem.fromToml v with
    | .error e => .error e
    | .ok i =>
      match decodeItems vs with
      | .error e => .error e
      | .ok rest => .ok (i :: rest)

/-- Derived `Deserialize` for `TodoList`: requires a table with an array
`items` and a string `last_updated` that parses as RFC 3339. -/
def TodoList.fromToml : Toml → Except String TodoList
  | .table kvs =>
    match tomlLookup kvs "items" with
    | none => .error "missing field items"
    | some (.arr vs) =>
      match decodeItems vs with
      | .error e => .error e
      | .ok items =>
        match tomlLookup kvs "last_updated" with
        | none => .error "missing field last_updated"
        | some (.str s) =>
          match Timestamp.fromRfc3339 s with
          | none => .error "invalid RFC 3339 datetime for last_updated"
          | some ts => .ok { items := items, last_updated := ts }
        | some _ => .error "invalid type for field last_updated"
    | some _ => .error "invalid type for field items"
  | _ => .error "invalid type: expected a table for TodoList"

/-! ## The serialization boundary (`src/serialize.rs`) -/

/-- The `io::ErrorKind` values the program distinguishes: `NotFound`
(tested by `main`) versus everything else. -/
inductive IOErrorKind where
  | notFound
  | permissionDenied
  | other (descr : String)
deriving Repr, DecidableEq

/-- A file's content as seen through `toml::from_str`: either
syntactically malformed text or a well-formed document. -/
inductive FileDoc where
  | malformed
  | wellFormed (doc : Toml)

/-- What `fs::read_to_string` finds at a path.  An absent file is
`unreadable .notFound` — the kind `io::Error` reports for it. -/
inductive FileState where
  | unreadable (kind : IOErrorKind)
  | stored (d : FileDoc)

/-- The file system: a map from paths to file states. -/
def FS : Type := String → FileState

/-- Mirrors `fs::read_to_string`, returning the error kind on failure. -/
def readToString (fs : FS) (filepath : String) :
    Except IOErrorKind FileDoc :=
  match fs filepath with
  | .unreadable k => .error k
  | .stored d => .ok d

/-- Mirrors `SerdeError` (`src/serialize.rs:13`): `IO` wraps an `io::Error`,
`Parse` a `toml::de::Error`, `Format` a `toml::ser::Error`. -/
inductive SerdeError where
  | ioErr (kind : IOErrorKind)
  | parseErr (msg : String)
  | formatErr (msg : String)
deriving Repr, DecidableEq

/-- Mirrors `load_todo_list` (`src/serialize.rs:28`):
`fs::read_to_string(filepath)?` maps any read failure to
`SerdeError::IO`; `toml::from_str::<TodoList>(&contents)?` maps both
syntax-level and shape-level failures to `SerdeError::Parse`. -/
def load_todo_list (fs : FS) (filepath : String) :
    Except SerdeError TodoList :=
  match readToString fs filepath with
  | .error k => .error (.ioErr k)
  | .ok .malformed => .error (.parseErr "failed to parse file contents")
  | .ok (.wellFormed doc) =>
    match TodoList.fromToml doc with
    | .error msg => .error (.parseErr msg)
    | .ok l => .ok l

/-- Path of `main`'s todo-list file (`src/main.rs:9`). -/
def TODO_LIST_FILE_PATH : String := "todo_list.toml"

/-- Mirrors `dump_todo_list` (`src/serialize.rs:39`): serializes the list (which
cannot fail for this data model, so no `SerdeError::Format` arises) and
writes it to `filepath`, overwriting existing content.  The write is the
successful case of `fs::write`; no claim concerns a failing write. -/
def dump_todo_list (l : TodoList) (filepath : String) (fs : FS) : FS :=
  fun p =>
    if p = filepath then .stored (.wellFormed l.toToml) else fs p

/-! ### Digit-level round-trip lemmas -/

theorem digitChar_isDigit : ∀ d < 10, (Nat.digitChar d).isDigit = true := by
  decide

theorem digitVal_digitChar : ∀ d < 10, digitVal (Nat.digitChar d) = d := by
  decide

theorem padDigits_length (k : Nat) : ∀ n, (padDigits k n).length = k := by
  induction k with
  | zero => intro n; rfl
  | succ k ih => intro n; simp [padDigits, ih]

theorem pow_pos_ten (k : Nat) : 0 < 10 ^ k :=
  Nat.pos_pow_of_pos k (by norm_num)

theorem div_pow_lt_ten {n k : Nat} (hn : n < 10 ^ (k + 1)) :
    n / 10 ^ k < 10 := by
  apply Nat.div_lt_of_lt_mul
  rw [pow_succ] at hn
  exact hn

theorem acc_digit_step (acc n q : Nat) :
    (acc * 10 + n / q) * q + n % q = acc * (q * 10) + n := by
  have h : q * (n / q) + n % q = n := Nat.div_add_mod n q
  calc (acc * 10 + n / q) * q + n % q
      = acc * (q * 10) + (q * (n / q) + n % q) := by ring
    _ = acc * (q * 10) + n := by rw [h]

theorem padDigits_all_digits (k : Nat) :
    ∀ n, n < 10 ^ k → ∀ c ∈ padDigits k n, c.isDigit = true := by
  induction k with
  | zero => intro n _ c hc; simp [padDigits] at hc
  | succ k ih =>
    intro n hn c hc
    simp only [padDigits, List.mem_cons] at hc
    rcases hc with hc | hc
    · subst hc
      exact digitChar_isDigit _ (div_pow_lt_ten hn)
    · exact ih _ (Nat.mod_lt _ (pow_pos_ten k)) c hc

theorem readDigits_padDigits (k : Nat) :
    ∀ acc n cs, n < 10 ^ k →
      readDigits k acc (padDigits k n ++ cs) = some (acc * 10 ^ k + n, cs) := by
  induction k with
  | zero =>
    intro acc n cs hn
    rw [pow_zero] at hn
    have hn0 : n = 0 := Nat.lt_one_iff.mp hn
    subst hn0
    simp [padDigits, readDigits]
  | succ k ih =>
    intro acc n cs hn
    have hdiv : n / 10 ^ k < 10 := div_pow_lt_ten hn
    have hmod : n % 10 ^ k < 10 ^ k := Nat.mod_lt _ (pow_pos_ten k)
    simp only [padDigits, List.cons_append, readDigits,
      digitChar_isDigit _ hdiv, if_pos, digitVal_digitChar _ hdiv,
      List.append_eq]
    rw [ih _ _ _ hmod]
    rw [acc_digit_step, pow_succ]

theorem digitsToNat_padDigits (k : Nat) :
    ∀ acc n, n < 10 ^ k →
      digitsToNat (padDigits k n) acc = acc * 10 ^ k + n := by
  induction k with
  | zero =>
    intro acc n hn
    rw [pow_zero] at hn
    have hn0 : n = 0 := Nat.lt_one_iff.mp hn
    subst hn0
    simp [padDigits, digitsToNat]
  | succ k ih =>
    intro acc n hn
    have hdiv : n / 10 ^ k < 10 := div_pow_lt_ten hn
    have hmod : n % 10 ^ k < 10 ^ k := Nat.mod_lt _ (pow_pos_ten k)
    simp only [padDigits, digitsToNat, digitVal_digitChar _ hdiv]
    rw [ih _ _ hmod]
    rw [acc_digit_step, pow_succ]

theorem takeWhile_all_append {p : Char → Bool} :
    ∀ (l : List Char) (c : Char) (r : List Char),
      (∀ x ∈ l, p x = true) → p c = false →
      (l ++ c :: r).takeWhile p = l := by
  intro l c r hl hc
  induction l with
  | nil => simp [List.takeWhile, hc]
  | cons x xs ih =>
    have hx : p x = true := hl x (by simp)
    simp only [List.cons_append, List.takeWhile, hx, List.append_eq]
    rw [ih (fun y hy => hl y (by simp [hy]))]

theorem dropWhile_all_append {p : Char → Bool} :
    ∀ (l : List Char) (c : Char) (r : List Char),
      (∀ x ∈ l, p x = true) → p c = false →
      (l ++ c :: r).dropWhile p = c :: r := by
  intro l c r hl hc
  induction l with
  | nil => simp [List.dropWhile, hc]
  | cons x xs ih =>
    have hx : p x = true := hl x (by simp)
    simp only [List.cons_append, List.dropWhile, hx, List.append_eq]
    exact ih (fun y hy => hl y (by simp [hy]))

theorem parseFrac_fracChars_aux (k scale nano : Nat) (cs : List Char)
    (hk1 : 1 ≤ k) (hk : k ≤ 9) (hscale : scale = 10 ^ (9 - k))
    (hdvd : scale ∣ nano) (hlt : nano / scale < 10 ^ k) :
    parseFrac ('.' :: (padDigits k (nano / scale) ++ 'Z' :: cs)) =
      some (nano, 'Z' :: cs) := by
  have hz : 'Z'.isDigit = false := by decide
  have hall := padDigits_all_digits k _ hlt
  have htake := takeWhile_all_append (padDigits k (nano / scale)) 'Z' cs hall hz
  have hdrop := dropWhile_all_append (padDigits k (nano / scale)) 'Z' cs hall hz
  have hlen : (padDigits k (nano / scale)).length = k := padDigits_length k _
  simp only [parseFrac, htake, hdrop, hlen]
  have hne : ¬ (k = 0) := by omega
  rw [if_neg hne]
  have htk : (padDigits k (nano / scale)).take 9 = padDigits k (nano / scale) :=
    List.take_of_length_le (by rw [hlen]; exact hk)
  rw [htk, digitsToNat_padDigits _ _ _ hlt, hlen]
  have hmul : nano / scale * 10 ^ (9 - k) = nano := by
    rw [← hscale, Nat.div_mul_cancel hdvd]
  simp [hmul]

theorem parseFrac_fracChars (nano : Nat) (hn : nano < 1000000000)
    (cs : List Char) :
    parseFrac (fracChars nano ++ 'Z' :: cs) = some (nano, 'Z' :: cs) := by
  by_cases h0 : nano = 0
  · subst h0
    simp [fracChars, parseFrac]
  · by_cases h6 : nano % 1000000 = 0
    · have haux := parseFrac_fracChars_aux 3 1000000 nano cs (by omega)
        (by omega) (by norm_num) (Nat.dvd_of_mod_eq_zero h6)
        (by apply Nat.div_lt_of_lt_mul; norm_num; omega)
      simpa [fracChars, h0, h6] using haux
    · by_cases h3 : nano % 1000 = 0
      · have haux := parseFrac_fracChars_aux 6 1000 nano cs (by omega)
          (by omega) (by norm_num) (Nat.dvd_of_mod_eq_zero h3)
          (by apply Nat.div_lt_of_lt_mul; norm_num; omega)
        simpa [fracChars, h0, h6, h3] using haux
      · have haux := parseFrac_fracChars_aux 9 1 nano cs (by omega)
          (by omega) (by norm_num) (one_dvd _)
          (by simpa using hn)
        simpa [fracChars, h0, h6, h3] using haux

theorem expectChar_self (c : Char) (cs : List Char) :
    expectChar c (c :: cs) = some cs := by
  simp [expectChar]

theorem expectDateTimeSep_T (cs : List Char) :
    expectDateTimeSep ('T' :: cs) = some cs := rfl

theorem parseOffsetZ_Z (cs : List Char) :
    parseOffsetZ ('Z' :: cs) = some cs := rfl

theorem fromRfc3339_toRfc3339 (t : Timestamp) (h : t.Valid) :
    Timestamp.fromRfc3339 t.toRfc3339 = some t := by
  have h' := h
  obtain ⟨hy, hm1, hm2, hd1, hd2, hh, hmi, hs, hn⟩ := h'
  have hy' : t.year < 10 ^ 4 := by norm_num; omega
  have hmo' : t.month < 10 ^ 2 := by norm_num; omega
  have hd' : t.day < 10 ^ 2 := by
    have h31 : daysInMonth t.year t.month ≤ 31 := by
      unfold daysInMonth
      split
      · split <;> norm_num
      · split <;> norm_num
    norm_num
    omega
  have hh' : t.hour < 10 ^ 2 := by norm_num; omega
  have hmi' : t.minute < 10 ^ 2 := by norm_num; omega
  have hs' : t.second < 10 ^ 2 := by norm_num; omega
  show parseRfc3339Chars (rfc3339Chars t) = some t
  rw [rfc3339Chars, parseRfc3339Chars, readDigits_padDigits _ _ _ _ hy']
  simp only [Nat.zero_mul, Nat.zero_add, expectChar_self]
  rw [parseMonthOn, readDigits_padDigits _ _ _ _ hmo']
  simp only [Nat.zero_mul, Nat.zero_add, expectChar_self]
  rw [parseDayOn, readDigits_padDigits _ _ _ _ hd']
  simp only [Nat.zero_mul, Nat.zero_add, expectDateTimeSep_T]
  rw [parseHourOn, readDigits_padDigits _ _ _ _ hh']
  simp only [Nat.zero_mul, Nat.zero_add, expectChar_self]
  rw [parseMinuteOn, readDigits_padDigits _ _ _ _ hmi']
  simp only [Nat.zero_mul, Nat.zero_add, expectChar_self]
  rw [parseSecondOn, readDigits_padDigits _ _ _ _ hs']
  simp only [Nat.zero_mul, Nat.zero_add]
  rw [parseNanoOn, parseFrac_fracChars _ hn]
  simp only [finishTimestamp, parseOffsetZ_Z]
  simp [h]

theorem fromToml_toToml_item (i : TodoItem) :
    TodoItem.fromToml i.toToml = .ok i := by
  simp [TodoItem.toToml, TodoItem.fromToml, tomlLookup]

theorem decodeItems_map_toToml (items : List TodoItem) :
    decodeItems (items.map TodoItem.toToml) = .ok items := by
  induction items with
  | nil => rfl
  | cons i rest ih =>
    simp [decodeItems, fromToml_toToml_item, ih]

theorem fromToml_toToml_list (l : TodoList) (h : l.last_updated.Valid) :
    TodoList.fromToml l.toToml = .ok l := by
  simp [TodoList.toToml, TodoList.fromToml, tomlLookup,
    decodeItems_map_toToml, fromRfc3339_toRfc3339 _ h]

theorem load_dump_eq_ok (l : TodoList) (h : l.last_updated.Valid)
    (fs : FS) (path : String) :
    load_todo_list (dump_todo_list l path fs) path = .ok l := by
  simp [load_todo_list, dump_todo_list, readToString,
    fromToml_toToml_list _ h]

/-! ### Characterisation of the Vec primitives -/

theorem listRemove_eq_some {α : Type _} :
    ∀ (xs : List α) (i : Nat) (h : i < xs.length),
      listRemove xs i =
        some (xs.get ⟨i, h⟩, xs.take i ++ xs.drop (i + 1)) := by
  intro xs
  induction xs with
  | nil => intro i h; simp at h
  | cons x xs ih =>
    intro i h
    cases i with
    | zero => simp [listRemove]
    | succ n =>
      have hn : n < xs.length := by simpa using h
      simp [listRemove, ih n hn]

theorem listRemove_eq_none {α : Type _} :
    ∀ (xs : List α) (i : Nat), xs.length ≤ i → listRemove xs i = none := by
  intro xs
  induction xs with
  | nil => intro i _; cases i <;> rfl
  | cons x xs ih =>
    intro i h
    cases i with
    | zero => simp at h
    | succ n =>
      have hn : xs.length ≤ n := by simpa using h
      simp [listRemove, ih n hn]

theorem listInsert_eq_some {α : Type _} :
    ∀ (xs : List α) (i : Nat) (a : α), i ≤ xs.length →
      listInsert xs i a = some (xs.take i ++ a :: xs.drop i) := by
  intro xs
  induction xs with
  | nil =>
    intro i a h
    have : i = 0 := by simpa using h
    subst this
    rfl
  | cons x xs ih =>
    intro i a h
    cases i with
    | zero => rfl
    | succ n =>
      have hn : n ≤ xs.length := by simpa using h
      simp [listInsert, ih n a hn]

theorem listInsert_eq_none {α : Type _} :
    ∀ (xs : List α) (i : Nat) (a : α), xs.length < i →
      listInsert xs i a = none := by
  intro xs
  induction xs with
  | nil =>
    intro i a h
    cases i with
    | zero => simp at h
    | succ n => rfl
  | cons x xs ih =>
    intro i a h
    cases i with
    | zero => simp at h
    | succ n =>
      have hn : xs.length < n := by simpa using h
      simp [listInsert, ih n a hn]

theorem listInsert_listRemove {α : Type _} :
    ∀ (xs : List α) (i : Nat) (x : α) (rest : List α),
      listRemove xs i = some (x, rest) → listInsert rest i x = some xs := by
  intro xs
  induction xs with
  | nil => intro i x rest h; simp [listRemove] at h
  | cons y ys ih =>
    intro i x rest h
    cases i with
    | zero =>
      simp [listRemove] at h
      obtain ⟨rfl, rfl⟩ := h
      simp [listInsert]
    | succ n =>
      simp only [listRemove] at h
      cases hr : listRemove ys n with
      | none => rw [hr] at h; simp at h
      | some p =>
        rw [hr] at h
        obtain ⟨x', ys'⟩ := p
        simp at h
        obtain ⟨rfl, rfl⟩ := h
        simp only [listInsert]
        rw [ih n x' ys' hr]
        rfl

theorem listRemove_append_last {α : Type _} :
    ∀ (ys : List α) (x : α),
      listRemove (ys ++ [x]) ys.length = some (x, ys) := by
  intro ys x
  induction ys with
  | nil => rfl
  | cons y ys ih => simp [listRemove, ih]

theorem get?_set_self {α : Type _} :
    ∀ (l : List α) (i : Nat) (a : α), i < l.length →
      (l.set i a).get? i = some a := by
  intro l
  induction l with
  | nil => intro i a h; simp at h
  | cons x xs ih =>
    intro i a h
    cases i with
    | zero => rfl
    | succ n => exact ih n a (by simpa using h)

theorem get?_set_other {α : Type _} :
    ∀ (l : List α) (i j : Nat) (a : α), j ≠ i →
      (l.set i a).get? j = l.get? j := by
  intro l
  induction l with
  | nil => intro i j a _; rfl
  | cons x xs ih =>
    intro i j a hne
    cases i with
    | zero =>
      cases j with
      | zero => exact absurd rfl hne
      | succ m => rfl
    | succ n =>
      cases j with
      | zero => rfl
      | succ m => exact ih n m a (by omega)

theorem get_set_self {α : Type _} :
    ∀ (l : List α) (i : Nat) (a : α) (h : i < (l.set i a).length),
      (l.set i a).get ⟨i, h⟩ = a := by
  intro l
  induction l with
  | nil => intro i a h; simp at h
  | cons x xs ih =>
    intro i a h
    cases i with
    | zero => rfl
    | succ n => exact ih n a (by simpa using h)

/-! ## The claims -/

/-- C1: for every TodoList `x`, dumping `x` to a path and loading from
that path yields a TodoList equal to `x` in every field — the item
sequence in order, each description and completed flag, and
`last_updated` to its stored precision and timezone offset. -/
theorem C1_dump_load_roundtrip (x : TodoList) (hx : x.last_updated.Valid)
    (fs : FS) (path : String) :
    load_todo_list (dump_todo_list x path fs) path = .ok x :=
  load_dump_eq_ok x hx fs path

/-- Witness for C1 at a concrete two-item list. -/
theorem C1_dump_load_roundtrip_witness :
    (⟨[⟨"buy milk", false⟩, ⟨"write spec", true⟩],
        ⟨2024, 5, 6, 12, 34, 56, 123456789⟩⟩ : TodoList).last_updated.Valid
      ∧
    load_todo_list
        (dump_todo_list
          ⟨[⟨"buy milk", false⟩, ⟨"write spec", true⟩],
            ⟨2024, 5, 6, 12, 34, 56, 123456789⟩⟩
          TODO_LIST_FILE_PATH (fun _ => .unreadable .notFound))
        TODO_LIST_FILE_PATH =
      .ok ⟨[⟨"buy milk", false⟩, ⟨"write spec", true⟩],
        ⟨2024, 5, 6, 12, 34, 56, 123456789⟩⟩ :=
  ⟨by decide, C1_dump_load_roundtrip _ (by decide) _ _⟩

/-- C5: `add_item` always succeeds, the count grows by exactly one, the
last element is the added item, the previous items keep their values and
positions, and a default-constructed item has `completed = false`. -/
theorem C5_add_item (l : TodoList) (i : TodoItem) (now : Timestamp) :
    (l.add_item i now).len = l.len + 1 ∧
    (l.add_item i now).items.getLast? = some i ∧
    (l.add_item i now).items.take l.len = l.items ∧
    TodoItem.default.completed = false := by
  refine ⟨?_, ?_, ?_, rfl⟩
  · simp [TodoList.add_item, TodoList.len]
  · simp [TodoList.add_item]
  · simp [TodoList.add_item, TodoList.len, List.take_left]

/-- C6: `remove_item` removes exactly the item at `index`, shifts the
suffix left (preserving relative order), and shrinks the count by one;
for `[a,b,c]`, removing index 1 yields `[a,c]`. -/
theorem C6_remove_item (l : TodoList) (index : Nat) (now : Timestamp)
    (h : index < l.items.length) :
    l.remove_item index now =
        some { items := l.items.take index ++ l.items.drop (index + 1)
               last_updated := now } ∧
    (l.items.take index ++ l.items.drop (index + 1)).length + 1 =
        l.items.length ∧
    ∀ (a b c : TodoItem) (ts now2 : Timestamp),
      (⟨[a, b, c], ts⟩ : TodoList).remove_item 1 now2 =
        some ⟨[a, c], now2⟩ := by
  refine ⟨?_, ?_, ?_⟩
  · simp [TodoList.remove_item, listRemove_eq_some l.items index h]
  · simp only [List.length_append, List.length_take, List.length_drop]
    omega
  · intro a b c ts now2
    simp [TodoList.remove_item, listRemove]

/-- Witness for C6 at a concrete three-item list. -/
theorem C6_remove_item_witness :
    (1 < ([⟨"a", false⟩, ⟨"b", true⟩, ⟨"c", false⟩] :
        List TodoItem).length) ∧
    (⟨[⟨"a", false⟩, ⟨"b", true⟩, ⟨"c", false⟩],
        ⟨2024, 1, 2, 3, 4, 5, 6⟩⟩ : TodoList).remove_item 1
        ⟨2024, 1, 2, 3, 4, 7, 8⟩ =
      some { items := [⟨"a", false⟩, ⟨"c", false⟩]
             last_updated := ⟨2024, 1, 2, 3, 4, 7, 8⟩ } := by
  refine ⟨by decide, ?_⟩
  have hmain := C6_remove_item
    ⟨[⟨"a", false⟩, ⟨"b", true⟩, ⟨"c", false⟩], ⟨2024, 1, 2, 3, 4, 5, 6⟩⟩
    1 ⟨2024, 1, 2, 3, 4, 7, 8⟩ (by decide)
  exact hmain.1

/-- C10: `move_item i i` reinserts the removed item at its original
position, so the item sequence is exactly unchanged; only `last_updated`
is modified. -/
theorem C10_move_item_same_index (l : TodoList) (i : Nat)
    (now : Timestamp) (h : i < l.items.length) :
    l.move_item i i now = some { items := l.items, last_updated := now } := by
  obtain ⟨x, rest, hr⟩ : ∃ x rest, listRemove l.items i = some (x, rest) :=
    ⟨_, _, listRemove_eq_some l.items i h⟩
  have hi := listInsert_listRemove l.items i x rest hr
  simp [TodoList.move_item, hr, hi]

/-- Witness for C10 at a concrete two-item list and index 1. -/
theorem C10_move_item_same_index_witness :
    (1 < ([⟨"a", false⟩, ⟨"b", true⟩] : List TodoItem).length) ∧
    (⟨[⟨"a", false⟩, ⟨"b", true⟩], ⟨2024, 1, 2, 3, 4, 5, 6⟩⟩ :
        TodoList).move_item 1 1 ⟨2024, 1, 2, 3, 4, 7, 8⟩ =
      some { items := [⟨"a", false⟩, ⟨"b", true⟩]
             last_updated := ⟨2024, 1, 2, 3, 4, 7, 8⟩ } :=
  ⟨by decide, C10_move_item_same_index _ 1 _ (by decide)⟩

/-- C2: `move_item(ix_old, ix_new)` produces exactly the sequence obtained
by removing the item at `ix_old` and inserting it at `ix_new` of the
shortened sequence; in particular `[a,b,c,d].move_item 0 2 = [b,c,a,d]`,
`move_item 0 0` on a three-element list keeps the list unchanged, and
moving the last item to index 0 makes it first, shifting the others right
by one. -/
theorem C2_move_item_semantics :
    (∀ (l : TodoList) (ix_old ix_new : Nat) (now : Timestamp)
        (h1 : ix_old < l.items.length),
        ix_new ≤ l.items.length - 1 →
        l.move_item ix_old ix_new now =
          some ⟨(l.items.take ix_old ++ l.items.drop (ix_old + 1)).take
                ix_new ++ l.items.get ⟨ix_old, h1⟩ ::
                  (l.items.take ix_old ++
                    l.items.drop (ix_old + 1)).drop ix_new,
                now⟩) ∧
    (∀ (a b c d : TodoItem) (ts now : Timestamp),
        (⟨[a, b, c, d], ts⟩ : TodoList).move_item 0 2 now =
          some ⟨[b, c, a, d], now⟩) ∧
    (∀ (a b c : TodoItem) (ts now : Timestamp),
        (⟨[a, b, c], ts⟩ : TodoList).move_item 0 0 now =
          some ⟨[a, b, c], now⟩) ∧
    (∀ (ys : List TodoItem) (x : TodoItem) (ts now : Timestamp),
        (⟨ys ++ [x], ts⟩ : TodoList).move_item ys.length 0 now =
          some ⟨x :: ys, now⟩) := by
  refine ⟨?_, ?_, ?_, ?_⟩
  · intro l ix_old ix_new now h1 h2
    have hr := listRemove_eq_some l.items ix_old h1
    have hlen : (l.items.take ix_old ++ l.items.drop (ix_old + 1)).length =
        l.items.length - 1 := by
      simp only [List.length_append, List.length_take, List.length_drop]
      omega
    have hi := listInsert_eq_some
      (l.items.take ix_old ++ l.items.drop (ix_old + 1)) ix_new
      (l.items.get ⟨ix_old, h1⟩) (by omega)
    simp only [TodoList.move_item, hr, hi]
  · intro a b c d ts now
    simp [TodoList.move_item, listRemove, listInsert]
  · intro a b c ts now
    simp [TodoList.move_item, listRemove, listInsert]
  · intro ys x ts now
    have hr := listRemove_append_last ys x
    have hi := listInsert_eq_some ys 0 x (Nat.zero_le _)
    simp only [List.take_zero, List.drop_zero, List.nil_append] at hi
    simp [TodoList.move_item, hr, hi]

/-- Witness for C2 at a concrete four-item list (move index 0 to 2). -/
theorem C2_move_item_semantics_witness :
    (0 < ([⟨"a", false⟩, ⟨"b", false⟩, ⟨"c", true⟩, ⟨"d", false⟩] :
        List TodoItem).length) ∧
    (0 ≤ ([⟨"a", false⟩, ⟨"b", false⟩, ⟨"c", true⟩, ⟨"d", false⟩] :
        List TodoItem).length - 1) ∧
    (⟨[⟨"a", false⟩, ⟨"b", false⟩, ⟨"c", true⟩, ⟨"d", false⟩],
        ⟨2024, 1, 2, 3, 4, 5, 6⟩⟩ : TodoList).move_item 0 2
        ⟨2024, 1, 2, 3, 4, 7, 8⟩ =
      some ⟨[⟨"b", false⟩, ⟨"c", true⟩, ⟨"a", false⟩, ⟨"d", false⟩],
        ⟨2024, 1, 2, 3, 4, 7, 8⟩⟩ :=
  ⟨by decide, by decide,
    C2_move_item_semantics.2.1 ⟨"a", false⟩ ⟨"b", false⟩ ⟨"c", true⟩
      ⟨"d", false⟩ ⟨2024, 1, 2, 3, 4, 5, 6⟩ ⟨2024, 1, 2, 3, 4, 7, 8⟩⟩

/-- C7: `toggle_completion` flips the flag at `i` and returns the new
value; called twice it returns `!c` then `c` and restores the flag. -/
theorem C7_toggle_twice (l : TodoList) (i : Nat) (now now2 : Timestamp)
    (h : i < l.items.length) :
    ∃ l1 l2,
      l.toggle_completion i now =
        some (!(l.items.get ⟨i, h⟩).completed, l1) ∧
      (l1.items.get? i).map TodoItem.completed =
        some (!(l.items.get ⟨i, h⟩).completed) ∧
      l1.toggle_completion i now2 =
        some ((l.items.get ⟨i, h⟩).completed, l2) ∧
      (l2.items.get? i).map TodoItem.completed =
        (l.items.get? i).map TodoItem.completed := by
  have hlen1 : i < (l.items.set i
      { l.items.get ⟨i, h⟩ with
        completed := !(l.items.get ⟨i, h⟩).completed }).length := by
    simpa [List.length_set] using h
  refine ⟨⟨l.items.set i
      { l.items.get ⟨i, h⟩ with
        completed := !(l.items.get ⟨i, h⟩).completed }, now⟩,
    ⟨(l.items.set i
      { l.items.get ⟨i, h⟩ with
        completed := !(l.items.get ⟨i, h⟩).completed }).set i
        (l.items.get ⟨i, h⟩), now2⟩, ?_, ?_, ?_, ?_⟩
  · simp only [TodoList.toggle_completion]
    rw [dif_pos h]
  · rw [get?_set_self _ _ _ h]
    rfl
  · simp only [TodoList.toggle_completion]
    rw [dif_pos hlen1]
    rw [get_set_self l.items i _ hlen1]
    simp [Bool.not_not]
  · rw [get?_set_self _ _ _ (by simpa [List.length_set] using h),
      List.get?_eq_get h]

/-- Witness for C7 at a concrete two-item list and index 1. -/
theorem C7_toggle_twice_witness :
    (1 < (⟨[⟨"a", false⟩, ⟨"b", true⟩], ⟨2024, 1, 2, 3, 4, 5, 6⟩⟩ :
        TodoList).items.length) ∧
    ∃ l1 l2,
      (⟨[⟨"a", false⟩, ⟨"b", true⟩], ⟨2024, 1, 2, 3, 4, 5, 6⟩⟩ :
          TodoList).toggle_completion 1 ⟨2024, 1, 2, 3, 4, 7, 8⟩ =
        some (false, l1) ∧
      (l1.items.get? 1).map TodoItem.completed = some false ∧
      l1.toggle_completion 1 ⟨2024, 1, 2, 3, 4, 9, 9⟩ = some (true, l2) ∧
      (l2.items.get? 1).map TodoItem.completed =
        ((⟨[⟨"a", false⟩, ⟨"b", true⟩], ⟨2024, 1, 2, 3, 4, 5, 6⟩⟩ :
          TodoList).items.get? 1).map TodoItem.completed :=
  ⟨by decide,
    C7_toggle_twice ⟨[⟨"a", false⟩, ⟨"b", true⟩], ⟨2024, 1, 2, 3, 4, 5, 6⟩⟩
      1 ⟨2024, 1, 2, 3, 4, 7, 8⟩ ⟨2024, 1, 2, 3, 4, 9, 9⟩ (by decide)⟩

/-- C9: `toggle_completion i` changes nothing but the completed flag of
the item at `i` (and `last_updated`): count, order, all descriptions and
all other completed flags are untouched. -/
theorem C9_toggle_frame (l : TodoList) (i : Nat) (now : Timestamp)
    (h : i < l.items.length) :
    ∃ b l1, l.toggle_completion i now = some (b, l1) ∧
      l1.items.length = l.items.length ∧
      (∀ j, j ≠ i → l1.items.get? j = l.items.get? j) ∧
      (l1.items.get? i).map TodoItem.description =
        (l.items.get? i).map TodoItem.description ∧
      (l1.items.get? i).map TodoItem.completed =
        some (!(l.items.get ⟨i, h⟩).completed) := by
  refine ⟨!(l.items.get ⟨i, h⟩).completed,
    ⟨l.items.set i { l.items.get ⟨i, h⟩ with
        completed := !(l.items.get ⟨i, h⟩).completed }, now⟩,
    ?_, ?_, ?_, ?_, ?_⟩
  · simp only [TodoList.toggle_completion]
    rw [dif_pos h]
  · simp [List.length_set]
  · intro j hj
    exact get?_set_other _ _ _ _ hj
  · rw [get?_set_self _ _ _ h, List.get?_eq_get h]
    rfl
  · rw [get?_set_self _ _ _ h]
    rfl

/-- Witness for C9 at a concrete two-item list and index 0. -/
theorem C9_toggle_frame_witness :
    (0 < (⟨[⟨"a", false⟩, ⟨"b", true⟩], ⟨2024, 1, 2, 3, 4, 5, 6⟩⟩ :
        TodoList).items.length) ∧
    ∃ b l1,
      (⟨[⟨"a", false⟩, ⟨"b", true⟩], ⟨2024, 1, 2, 3, 4, 5, 6⟩⟩ :
          TodoList).toggle_completion 0 ⟨2024, 1, 2, 3, 4, 7, 8⟩ =
        some (b, l1) ∧
      l1.items.length = 2 ∧
      (∀ j, j ≠ 0 → l1.items.get? j =
        ([⟨"a", false⟩, ⟨"b", true⟩] : List TodoItem).get? j) ∧
      (l1.items.get? 0).map TodoItem.description =
        (([⟨"a", false⟩, ⟨"b", true⟩] : List TodoItem).get? 0).map
          TodoItem.description ∧
      (l1.items.get? 0).map TodoItem.completed = some true :=
  ⟨by decide,
    C9_toggle_frame ⟨[⟨"a", false⟩, ⟨"b", true⟩], ⟨2024, 1, 2, 3, 4, 5, 6⟩⟩
      0 ⟨2024, 1, 2, 3, 4, 7, 8⟩ (by decide)⟩

/-- C8: with in-bounds indices every index-based operation fully succeeds
(no failure branch is reached); an out-of-bounds index makes the
operation abort (`none`, modelling the Rust panic) rather than return a
recoverable error value. -/
theorem C8_index_preconditions :
    (∀ (l : TodoList) (index : Nat) (now : Timestamp),
        index < l.items.length →
        (l.remove_item index now).isSome = true) ∧
    (∀ (l : TodoList) (index : Nat) (now : Timestamp),
        l.items.length ≤ index → l.remove_item index now = none) ∧
    (∀ (l : TodoList) (i : Nat) (now : Timestamp),
        i < l.items.length →
        (l.toggle_completion i now).isSome = true) ∧
    (∀ (l : TodoList) (i : Nat) (now : Timestamp),
        l.items.length ≤ i → l.toggle_completion i now = none) ∧
    (∀ (l : TodoList) (ix_old ix_new : Nat) (now : Timestamp),
        ix_old < l.items.length → ix_new ≤ l.items.length - 1 →
        (l.move_item ix_old ix_new now).isSome = true) ∧
    (∀ (l : TodoList) (ix_old ix_new : Nat) (now : Timestamp),
        l.items.length ≤ ix_old → l.move_item ix_old ix_new now = none) ∧
    (∀ (l : TodoList) (ix_old ix_new : Nat) (now : Timestamp),
        ix_old < l.items.length → l.items.length - 1 < ix_new →
        l.move_item ix_old ix_new now = none) := by
  refine ⟨?_, ?_, ?_, ?_, ?_, ?_, ?_⟩
  · intro l index now h
    simp [TodoList.remove_item, listRemove_eq_some l.items index h]
  · intro l index now h
    simp [TodoList.remove_item, listRemove_eq_none l.items index h]
  · intro l i now h
    simp [TodoList.toggle_completion, h]
  · intro l i now h
    simp [TodoList.toggle_completion, Nat.not_lt.mpr h]
  · intro l ix_old ix_new now h1 h2
    have hr := listRemove_eq_some l.items ix_old h1
    have hi := listInsert_eq_some
      (l.items.take ix_old ++ l.items.drop (ix_old + 1)) ix_new
      (l.items.get ⟨ix_old, h1⟩) (by
        simp only [List.length_append, List.length_take, List.length_drop]
        omega)
    simp only [TodoList.move_item, hr, hi]
    rfl
  · intro l ix_old ix_new now h
    simp [TodoList.move_item, listRemove_eq_none l.items ix_old h]
  · intro l ix_old ix_new now h1 h2
    have hr := listRemove_eq_some l.items ix_old h1
    have hi := listInsert_eq_none
      (l.items.take ix_old ++ l.items.drop (ix_old + 1)) ix_new
      (l.items.get ⟨ix_old, h1⟩) (by
        simp only [List.length_append, List.length_take, List.length_drop]
        omega)
    simp only [TodoList.move_item, hr, hi]

/-- Witness for C8: a valid index succeeds, an invalid one aborts. -/
theorem C8_index_preconditions_witness :
    (0 < (⟨[⟨"a", false⟩], ⟨2024, 1, 2, 3, 4, 5, 6⟩⟩ :
        TodoList).items.length) ∧
    ((⟨[⟨"a", false⟩], ⟨2024, 1, 2, 3, 4, 5, 6⟩⟩ :
        TodoList).remove_item 0 ⟨2024, 1, 2, 3, 4, 7, 8⟩).isSome = true ∧
    ((⟨[⟨"a", false⟩], ⟨2024, 1, 2, 3, 4, 5, 6⟩⟩ :
        TodoList).items.length ≤ 5) ∧
    (⟨[⟨"a", false⟩], ⟨2024, 1, 2, 3, 4, 5, 6⟩⟩ :
        TodoList).remove_item 5 ⟨2024, 1, 2, 3, 4, 7, 8⟩ = none :=
  ⟨by decide,
    C8_index_preconditions.1 _ 0 _ (by decide),
    by decide,
    C8_index_preconditions.2.1 _ 5 _ (by decide)⟩

theorem remove_item_last_updated (l : TodoList) (index : Nat)
    (now : Timestamp) (l2 : TodoList)
    (h : l.remove_item index now = some l2) : l2.last_updated = now := by
  simp only [TodoList.remove_item] at h
  cases hrm : listRemove l.items index with
  | none => rw [hrm] at h; exact absurd h (by simp)
  | some p =>
    obtain ⟨x, rest⟩ := p
    rw [hrm] at h
    simp only [Option.some.injEq] at h
    rw [← h]

theorem move_item_last_updated (l : TodoList) (ix_old ix_new : Nat)
    (now : Timestamp) (l2 : TodoList)
    (h : l.move_item ix_old ix_new now = some l2) :
    l2.last_updated = now := by
  simp only [TodoList.move_item] at h
  cases hrm : listRemove l.items ix_old with
  | none => rw [hrm] at h; exact absurd h (by simp)
  | some p =>
    obtain ⟨x, rest⟩ := p
    rw [hrm] at h
    cases hin : listInsert rest ix_new x with
    | none => exact absurd h (by simp [hin])
    | some items2 =>
      simp only [hin, Option.some.injEq] at h
      rw [← h]

theorem toggle_completion_last_updated (l : TodoList) (i : Nat)
    (now : Timestamp) (b : Bool) (l2 : TodoList)
    (h : l.toggle_completion i now = some (b, l2)) :
    l2.last_updated = now := by
  simp only [TodoList.toggle_completion] at h
  by_cases hi : i < l.items.length
  · rw [dif_pos hi] at h
    simp only [Option.some.injEq, Prod.mk.injEq] at h
    rw [← h.2]
  · rw [dif_neg hi] at h
    exact absurd h (by simp)

/-- C3: every mutating operation stores the instant of that mutation into
`last_updated` (so it never decreases when the clock does not run
backwards), and read-only accessors (`len`, `is_empty`, `iter`) return
the receiver unchanged. -/
theorem C3_last_updated_contract :
    (∀ (l : TodoList) (it : TodoItem) (now : Timestamp),
        (l.add_item it now).last_updated = now) ∧
    (∀ (l : TodoList) (index : Nat) (now : Timestamp) (l2 : TodoList),
        l.remove_item index now = some l2 → l2.last_updated = now) ∧
    (∀ (l : TodoList) (ix_old ix_new : Nat) (now : Timestamp)
        (l2 : TodoList),
        l.move_item ix_old ix_new now = some l2 → l2.last_updated = now) ∧
    (∀ (l : TodoList) (i : Nat) (now : Timestamp) (b : Bool)
        (l2 : TodoList),
        l.toggle_completion i now = some (b, l2) →
        l2.last_updated = now) ∧
    (∀ (l : TodoList) (it : TodoItem) (now : Timestamp),
        l.last_updated.key ≤ now.key →
        l.last_updated.key ≤ (l.add_item it now).last_updated.key) ∧
    (∀ (l : TodoList) (index : Nat) (now : Timestamp) (l2 : TodoList),
        l.remove_item index now = some l2 →
        l.last_updated.key ≤ now.key →
        l.last_updated.key ≤ l2.last_updated.key) ∧
    (∀ (l : TodoList) (ix_old ix_new : Nat) (now : Timestamp)
        (l2 : TodoList),
        l.move_item ix_old ix_new now = some l2 →
        l.last_updated.key ≤ now.key →
        l.last_updated.key ≤ l2.last_updated.key) ∧
    (∀ (l : TodoList) (i : Nat) (now : Timestamp) (b : Bool)
        (l2 : TodoList),
        l.toggle_completion i now = some (b, l2) →
        l.last_updated.key ≤ now.key →
        l.last_updated.key ≤ l2.last_updated.key) ∧
    (∀ l : TodoList,
        l.lenCall = (l.len, l) ∧ l.isEmptyCall = (l.is_empty, l) ∧
        l.iterCall = (l.iter, l)) := by
  refine ⟨fun _ _ _ => rfl, remove_item_last_updated,
    move_item_last_updated, toggle_completion_last_updated,
    fun _ _ _ hc => hc, ?_, ?_, ?_, fun _ => ⟨rfl, rfl, rfl⟩⟩
  · intro l index now l2 h hc
    rw [remove_item_last_updated l index now l2 h]
    exact hc
  · intro l ix_old ix_new now l2 h hc
    rw [move_item_last_updated l ix_old ix_new now l2 h]
    exact hc
  · intro l i now b l2 h hc
    rw [toggle_completion_last_updated l i now b l2 h]
    exact hc

/-- Witness for C3: a concrete removal stamps the new instant, which is
at least the old one. -/
theorem C3_last_updated_contract_witness :
    ((⟨[⟨"a", false⟩], ⟨2024, 1, 2, 3, 4, 5, 6⟩⟩ : TodoList).remove_item 0
        ⟨2024, 1, 2, 3, 4, 7, 8⟩ =
      some ⟨[], ⟨2024, 1, 2, 3, 4, 7, 8⟩⟩) ∧
    ((⟨2024, 1, 2, 3, 4, 5, 6⟩ : Timestamp).key ≤
      (⟨2024, 1, 2, 3, 4, 7, 8⟩ : Timestamp).key) ∧
    (⟨2024, 1, 2, 3, 4, 5, 6⟩ : Timestamp).key ≤
      (⟨[], ⟨2024, 1, 2, 3, 4, 7, 8⟩⟩ : TodoList).last_updated.key :=
  ⟨by decide, by decide,
    C3_last_updated_contract.2.2.2.2.2.1
      ⟨[⟨"a", false⟩], ⟨2024, 1, 2, 3, 4, 5, 6⟩⟩ 0 ⟨2024, 1, 2, 3, 4, 7, 8⟩
      ⟨[], ⟨2024, 1, 2, 3, 4, 7, 8⟩⟩ (by decide) (by decide)⟩

/-- C4: `load` fails with the `IO` error kind exactly when the file
cannot be read (reporting the read failure's kind, so a nonexistent path
gives specifically `notFound`), with a `Parse` error exactly when the
content is read but is not a well-formed TodoList document, and with no
other error kind. -/
theorem C4_load_error_taxonomy (fs : FS) (path : String) :
    ((∃ k, load_todo_list fs path = .error (.ioErr k)) ↔
      (∃ k, fs path = .unreadable k)) ∧
    (∀ k, fs path = .unreadable k →
      load_todo_list fs path = .error (.ioErr k)) ∧
    ((∃ msg, load_todo_list fs path = .error (.parseErr msg)) ↔
      (fs path = .stored .malformed ∨
        ∃ doc msg2, fs path = .stored (.wellFormed doc) ∧
          TodoList.fromToml doc = .error msg2)) ∧
    (∀ msg, load_todo_list fs path ≠ .error (.formatErr msg)) ∧
    (fs path = .unreadable .notFound →
      load_todo_list fs path = .error (.ioErr .notFound)) := by
  cases hfs : fs path with
  | unreadable k =>
    refine ⟨?_, ?_, ?_, ?_, ?_⟩
    · simp [load_todo_list, readToString, hfs]
    · intro k2 hk2
      cases hk2
      simp [load_todo_list, readToString, hfs]
    · simp [load_todo_list, readToString, hfs]
    · intro msg
      simp [load_todo_list, readToString, hfs]
    · intro hk2
      cases hk2
      simp [load_todo_list, readToString, hfs]
  | stored d =>
    cases d with
    | malformed =>
      refine ⟨?_, ?_, ?_, ?_, ?_⟩
      · simp [load_todo_list, readToString, hfs]
      · intro k2 hk2
        cases hk2
      · simp [load_todo_list, readToString, hfs]
      · intro msg
        simp [load_todo_list, readToString, hfs]
      · intro hk2
        cases hk2
    | wellFormed doc =>
      cases hft : TodoList.fromToml doc with
      | error msg2 =>
        refine ⟨?_, ?_, ?_, ?_, ?_⟩
        · simp [load_todo_list, readToString, hfs, hft]
        · intro k2 hk2
          cases hk2
        · simp only [load_todo_list, readToString, hfs, hft]
          constructor
          · intro _
            exact Or.inr ⟨doc, msg2, rfl, hft⟩
          · intro _
            exact ⟨msg2, rfl⟩
        · intro msg
          simp [load_todo_list, readToString, hfs, hft]
        · intro hk2
          cases hk2
      | ok l2 =>
        refine ⟨?_, ?_, ?_, ?_, ?_⟩
        · simp [load_todo_list, readToString, hfs, hft]
        · intro k2 hk2
          cases hk2
        · simp only [load_todo_list, readToString, hfs, hft]
          constructor
          · intro ⟨msg, hmsg⟩
            exact absurd hmsg (by simp)
          · intro hor
            rcases hor with hmal | ⟨doc2, msg2, hdoc2, hft2⟩
            · cases hmal
            · cases hdoc2
              rw [hft] at hft2
              cases hft2
        · intro msg
          simp [load_todo_list, readToString, hfs, hft]
        · intro hk2
          cases hk2

/-- Witness for C4: loading from an absent file reports `notFound`. -/
theorem C4_load_error_taxonomy_witness :
    ((fun _ : String => FileState.unreadable .notFound)
        TODO_LIST_FILE_PATH = .unreadable .notFound) ∧
    load_todo_list (fun _ => .unreadable .notFound) TODO_LIST_FILE_PATH =
      .error (.ioErr .notFound) :=
  ⟨rfl,
    (C4_load_error_taxonomy (fun _ => .unreadable .notFound)
      TODO_LIST_FILE_PATH).2.2.2.2 rfl⟩
